import Mathlib

/-!
Shallow embedding of the change-detection pipeline of
`scripts/ai_doc_checker.py` (class `FastAPIChangeDetector`).

Strings are modelled as `List Char` internally (Python operates on text
code-point by code-point); the outer entry points take Lean `String`s.
The Python regular expressions are embedded as explicit left-to-right
scans with the exact backtracking semantics of the concrete patterns
used by the source:

* `@app\.(get|post|put|delete|patch)\s*\(` and the `@router.` variant,
  searched case-insensitively (`re.IGNORECASE`); the five method
  alternatives are mutually exclusive literals, so at a fixed start
  position at most one alternative can match, and greedy `\s*` followed
  by a required `\(` collapses to "skip maximal whitespace, then require
  an opening parenthesis";
* the path pattern (quote, one or more non-quote characters, quote,
  where both quote kinds are accepted on either side and the group is
  the run between): on failure at a position the scan moves one
  character to the right, exactly as `re.search` does;
* `(?:async\s+)?def\s+(\w+)`: the optional `async` prefix never changes
  group 1 (the word after the leftmost `def` that is followed by
  whitespace), so the embedding scans for `def`, at least one
  whitespace character, and a non-empty word-character run.

The class `\w` is modelled as ASCII alphanumeric or underscore, and
`\s` / `strip()` as `Char.isWhitespace`; all inputs of interest are
ASCII.  Reading the current file inside `_get_full_function_code` is
modelled by an `Except String String` argument: `Except.ok content` is a
successful read and `Except.error e` an exception rendered as `e`.
-/

/-- Chars stripped by the Python call `line.lstrip("+- ")`. -/
def isMarkerChar (c : Char) : Bool :=
  c == '+' || c == '-' || c == ' '

/-- The two quote characters of the path pattern: the double quote and
the character with code 39 (the single quote). -/
def isQuoteChar (c : Char) : Bool :=
  c == '"' || c == Char.ofNat 39

/-- ASCII model of the regex class `\w`. -/
def isWordChar (c : Char) : Bool :=
  c.isAlphanum || c == '_'

/-- Literal prefix test: `isPrefixL pat s` holds when `pat` begins `s`. -/
def isPrefixL : List Char → List Char → Bool
  | [], _ => true
  | _ :: _, [] => false
  | a :: as, b :: bs => a == b && isPrefixL as bs

/-- Case-insensitive literal prefix test (model of `re.IGNORECASE`
matching of a literal). -/
def ciPrefixL : List Char → List Char → Bool
  | [], _ => true
  | _ :: _, [] => false
  | a :: as, b :: bs => a.toLower == b.toLower && ciPrefixL as bs

/-- Substring test: the Python expression `needle in hay`. -/
def hasSubstrL (needle : List Char) : List Char → Bool
  | [] => needle.isEmpty
  | c :: rest => isPrefixL needle (c :: rest) || hasSubstrL needle rest

/-- Python `str.strip()`: drop whitespace at both ends. -/
def trimL (s : List Char) : List Char :=
  ((s.dropWhile Char.isWhitespace).reverse.dropWhile Char.isWhitespace).reverse

/-- Python `text.split("\n")`. -/
def splitNl : List Char → List (List Char)
  | [] => [[]]
  | c :: rest =>
    if c == '\n' then [] :: splitNl rest
    else
      match splitNl rest with
      | h :: t => (c :: h) :: t
      | [] => [[c]]

/-- The five method alternatives of `FASTAPI_PATTERNS`, in the order of
the regex alternation `(get|post|put|delete|patch)`, paired with the
result of `.upper()` on them. -/
def FASTAPI_METHODS : List (String × String) :=
  [("get", "GET"), ("post", "POST"), ("put", "PUT"),
   ("delete", "DELETE"), ("patch", "PATCH")]

/-- After the matched method word, `\s*\(` requires: skip maximal
whitespace, then an opening parenthesis. -/
def openParenAfterWs (s : List Char) : Bool :=
  match s.dropWhile Char.isWhitespace with
  | c :: _ => c == '('
  | [] => false

/-- Try the method alternatives in alternation order at a fixed
position: the alternative must match case-insensitively and be followed
by `\s*\(`.  Returns the upper-cased method name. -/
def methodAfter : List (String × String) → List Char → Option String
  | [], _ => none
  | (m, u) :: ps, s =>
    if ciPrefixL m.toList s && openParenAfterWs (s.drop m.toList.length) then some u
    else methodAfter ps s

/-- Model of `re.search` for one decorator pattern: scan start positions
left to right; at each position require the decorator prefix (such as
`@app.`) case-insensitively, then a method alternative with `\s*\(`. -/
def searchPat (pre : List Char) : List Char → Option String
  | [] => none
  | c :: rest =>
    match (if ciPrefixL pre (c :: rest) then
             methodAfter FASTAPI_METHODS ((c :: rest).drop pre.length)
           else none) with
    | some u => some u
    | none => searchPat pre rest

/-- The `for pattern in FASTAPI_PATTERNS` loop on one cleaned line: the
`@app.` pattern is tried first, then `@router.`; the first pattern that
matches wins. -/
def lineMethod (clean : List Char) : Option String :=
  match searchPat "@app.".toList clean with
  | some u => some u
  | none => searchPat "@router.".toList clean

/-- Model of `re.search` for the path pattern: a quote, a non-empty run
of non-quote characters, a quote; on failure at a position the scan
moves one character to the right.  Returns the captured run. -/
def findQuoted : List Char → Option (List Char)
  | [] => none
  | c :: rest =>
    if isQuoteChar c then
      let run := rest.takeWhile (fun x => !isQuoteChar x)
      let rest2 := rest.dropWhile (fun x => !isQuoteChar x)
      if !run.isEmpty && !rest2.isEmpty then some run
      else findQuoted rest
    else findQuoted rest

/-- Lines 113-115 of the source: the path of a record is the first
quoted literal on the cleaned line, or the sentinel when there is
none. -/
def extractPath (clean : List Char) : String :=
  match findQuoted clean with
  | some p => String.mk p
  | none => "unknown"

/-- Model of `re.search` for `(?:async\s+)?def\s+(\w+)`: group 1 is the
word run after the leftmost `def` that is followed by at least one
whitespace character and a word character (the optional `async` prefix
cannot change it, see the header comment). -/
def findDefName : List Char → Option (List Char)
  | 'd' :: 'e' :: 'f' :: rest =>
    let ws := rest.takeWhile Char.isWhitespace
    let word := (rest.dropWhile Char.isWhitespace).takeWhile isWordChar
    if !ws.isEmpty && !word.isEmpty then some word
    else findDefName ('e' :: 'f' :: rest)
  | _ :: rest => findDefName rest
  | [] => none

/-- The cleaning step `line.lstrip("+- ").strip()` applied to a
candidate diff line by the function locator. -/
def stripDiffMarker (line : List Char) : List Char :=
  trimL (line.dropWhile isMarkerChar)

/-- A line whose stripped text stops the snippet window (lines 180-183
of the source). -/
def isNextDefStart (l : List Char) : Bool :=
  let t := trimL l
  isPrefixL "def ".toList t || isPrefixL "class ".toList t ||
    isPrefixL "@app.".toList t || isPrefixL "@router.".toList t

/-- Index of the first element satisfying `p`. -/
def findIdxFrom (p : List Char → Bool) : List (List Char) → Option Nat
  | [] => none
  | l :: rest => if p l then some 0 else (findIdxFrom p rest).map (· + 1)

/-- The early-truncation loop of `_get_full_function_code` (lines
179-185 of the source): cut the window before the first line after the
first one that starts a new definition or decorator; keep the window
unchanged when there is no such line. -/
def snippetTrunc (window : List (List Char)) : List (List Char) :=
  match findIdxFrom isNextDefStart (window.drop 1) with
  | some j0 => window.take (j0 + 1)
  | none => window

/-- The line-window computation of `_get_full_function_code` on a
successfully read file: the first line containing `def <name>(`, up to
20 lines from it, truncated by `snippetTrunc`.  `none` when no line
contains the marker. -/
def snippetLines (content : String) (function_name : String) : Option (List (List Char)) :=
  match findIdxFrom (fun l => hasSubstrL ("def " ++ function_name ++ "(").toList l)
      (splitNl content.toList) with
  | none => none
  | some i => some (snippetTrunc (((splitNl content.toList).drop i).take 20))

/-- Embedding of `_get_full_function_code(file_path, function_name)`,
with the file read modelled by the `Except` argument. -/
def get_full_function_code (fileRead : Except String String) (function_name : String) : String :=
  match fileRead with
  | Except.error e => "# Error reading function: " ++ e
  | Except.ok content =>
    match snippetLines content function_name with
    | some ls => String.mk (List.intercalate ['\n'] ls)
    | none => "# Function " ++ function_name ++ " not found in current file"

/-- Result dictionary of `_find_function_definition`. -/
structure FuncInfo where
  name : String
  code : String
  line : Nat
deriving DecidableEq, Repr

/-- One iteration of the window loop of `_find_function_definition` at
diff-line index `i`: strip the diff marker, skip blank and decorator
lines, otherwise search the function-definition pattern. -/
def candidateAt (lines : List (List Char)) (fileRead : Except String String) (i : Nat) : Option FuncInfo :=
  match lines.get? i with
  | none => none
  | some line =>
    let clean := stripDiffMarker line
    if clean.isEmpty || isPrefixL ['@'] clean then none
    else
      match findDefName clean with
      | some nm => some ⟨String.mk nm, get_full_function_code fileRead (String.mk nm), i + 1⟩
      | none => none

/-- Embedding of `_find_function_definition(lines, decorator_index)`:
scan the diff-line indices from `decorator_index + 1` up to
`min(decorator_index + 10, len(lines)) - 1`. -/
def find_function_definition (lines : List (List Char)) (decorator_index : Nat) (fileRead : Except String String) : Option FuncInfo :=
  (List.range' (decorator_index + 1)
      (min (decorator_index + 10) lines.length - (decorator_index + 1))).findSome?
    (candidateAt lines fileRead)

/-- The `APIChange` dataclass. -/
structure APIChange where
  method : String
  path : String
  function_name : String
  file_path : String
  code_snippet : String
  line_number : Nat
  change_type : String
deriving DecidableEq, Repr

/-- The body of the `for i, line in enumerate(lines)` loop of
`detect_api_changes` for one line: only added lines are considered, the
decorator patterns are tried in order, and a record is appended only
when a function definition is found. -/
def detectLine (lines : List (List Char)) (file_path : String) (fileRead : Except String String) (i : Nat) (line : List Char) : Option APIChange :=
  if isPrefixL ['+'] line then
    match lineMethod (trimL (line.drop 1)) with
    | none => none
    | some m =>
      match find_function_definition lines i fileRead with
      | none => none
      | some fi => some ⟨m, extractPath (trimL (line.drop 1)), fi.name, file_path,
                          fi.code, fi.line, "new"⟩
  else none

/-- Apply `detectLine` to the line stored at index `i`. -/
def detectAtLine (lines : List (List Char)) (file_path : String) (fileRead : Except String String) (i : Nat) : Option APIChange :=
  match lines.get? i with
  | none => none
  | some line => detectLine lines file_path fileRead i line

/-- Embedding of `detect_api_changes(diff_content, file_path)`: split
the diff into lines and collect the records of every line, in order. -/
def detect_api_changes (diff_content : String) (file_path : String) (fileRead : Except String String) : List APIChange :=
  (List.range (splitNl diff_content.toList).length).filterMap
    (detectAtLine (splitNl diff_content.toList) file_path fileRead)

/-- Inversion of `detectLine`: a produced record always comes from an
added line, a matched pattern and a located function, and its fields are
exactly those assembled at line 120-128 of the source. -/
theorem detectLine_inv {lines : List (List Char)} {fp : String} {r : Except String String}
    {i : Nat} {line : List Char} {c : APIChange}
    (h : detectLine lines fp r i line = some c) :
    isPrefixL ['+'] line = true ∧
    ∃ m fi, lineMethod (trimL (line.drop 1)) = some m ∧
      find_function_definition lines i r = some fi ∧
      c = ⟨m, extractPath (trimL (line.drop 1)), fi.name, fp, fi.code, fi.line, "new"⟩ := by
  unfold detectLine at h
  split at h
  · rename_i hpl
    refine ⟨hpl, ?_⟩
    split at h
    · exact absurd h (by simp)
    · rename_i m hm
      split at h
      · exact absurd h (by simp)
      · rename_i fi hfi
        exact ⟨m, fi, hm, hfi, (Option.some.inj h).symm⟩
  · exact absurd h (by simp)

/-- A record is never produced when the function locator fails. -/
theorem detectLine_none_of_find {lines : List (List Char)} {fp : String}
    {r : Except String String} {i : Nat} {line : List Char}
    (h : find_function_definition lines i r = none) :
    detectLine lines fp r i line = none := by
  unfold detectLine
  split
  · split
    · rfl
    · rw [h]
  · rfl

/-- The method alternatives only ever produce the upper-cased names of
the pattern list. -/
theorem methodAfter_mem : ∀ (ps : List (String × String)) (s : List Char) (u : String),
    methodAfter ps s = some u → u ∈ ps.map Prod.snd := by
  intro ps
  induction ps with
  | nil => intro s u h; simp [methodAfter] at h
  | cons p ps ih =>
    intro s u h
    obtain ⟨m, v⟩ := p
    unfold methodAfter at h
    split at h
    · cases h; simp
    · simp only [List.map_cons, List.mem_cons]
      exact Or.inr (ih s u h)

/-- A decorator-pattern search only ever produces the five upper-cased
method names. -/
theorem searchPat_mem (pre : List Char) : ∀ (s : List Char) (u : String),
    searchPat pre s = some u → u ∈ FASTAPI_METHODS.map Prod.snd := by
  intro s
  induction s with
  | nil => intro u h; simp [searchPat] at h
  | cons c rest ih =>
    intro u h
    unfold searchPat at h
    split at h
    · rename_i v hv
      cases h
      split at hv
      · exact methodAfter_mem _ _ _ hv
      · exact absurd hv (by simp)
    · exact ih u h

/-- The method of a matched line is one of the five fixed names. -/
theorem lineMethod_cases {clean : List Char} {m : String} (h : lineMethod clean = some m) :
    m = "GET" ∨ m = "POST" ∨ m = "PUT" ∨ m = "DELETE" ∨ m = "PATCH" := by
  unfold lineMethod at h
  have hmem : m ∈ FASTAPI_METHODS.map Prod.snd := by
    split at h
    · rename_i u hu
      cases h
      exact searchPat_mem _ _ _ hu
    · exact searchPat_mem _ _ _ h
  simpa [FASTAPI_METHODS] using hmem

/-- Splitting `takeWhile` and `dropWhile` at the first failing element. -/
theorem takeWhile_dropWhile_split {p : Char → Bool} :
    ∀ (l : List Char) (c : Char) (t : List Char),
      (∀ x ∈ l, p x = true) → p c = false →
      (l ++ c :: t).takeWhile p = l ∧ (l ++ c :: t).dropWhile p = c :: t := by
  intro l
  induction l with
  | nil =>
    intro c t _ hc
    constructor <;> simp [List.takeWhile, List.dropWhile, hc]
  | cons a as ih =>
    intro c t hall hc
    have ha : p a = true := hall a (by simp)
    have has : ∀ x ∈ as, p x = true := fun x hx => hall x (by simp [hx])
    obtain ⟨h1, h2⟩ := ih c t has hc
    constructor
    · simp [List.takeWhile, ha, h1]
    · simp [List.dropWhile, ha, h2]

/-- When the cleaned line decomposes as a quote-free prefix, a quote, a
non-empty quote-free run and a closing quote, the path search captures
exactly that run: the first quoted literal of the line. -/
theorem findQuoted_decomp :
    ∀ (a : List Char) (q1 : Char) (p : List Char) (q2 : Char) (b : List Char),
      isQuoteChar q1 = true → isQuoteChar q2 = true →
      (∀ x ∈ a, isQuoteChar x = false) → (∀ x ∈ p, isQuoteChar x = false) → p ≠ [] →
      findQuoted (a ++ q1 :: (p ++ q2 :: b)) = some p := by
  intro a
  induction a with
  | nil =>
    intro q1 p q2 b hq1 hq2 _ hp hne
    have hall : ∀ x ∈ p, (fun x => !isQuoteChar x) x = true := by
      intro x hx; simp [hp x hx]
    have hc : (fun x => !isQuoteChar x) q2 = false := by simp [hq2]
    obtain ⟨h1, h2⟩ := takeWhile_dropWhile_split p q2 b hall hc
    simp only [List.nil_append]
    unfold findQuoted
    rw [if_pos hq1]
    simp only [h1, h2]
    rw [if_pos]
    simp [List.isEmpty_iff, hne]
  | cons x xs ih =>
    intro q1 p q2 b hq1 hq2 ha hp hne
    have hx : isQuoteChar x = false := ha x (by simp)
    have hxs : ∀ y ∈ xs, isQuoteChar y = false := fun y hy => ha y (by simp [hy])
    simp only [List.cons_append]
    unfold findQuoted
    rw [if_neg (by simp [hx])]
    exact ih q1 p q2 b hq1 hq2 hxs hp hne

/-- On a line without quote characters the path search fails. -/
theorem findQuoted_of_no_quote :
    ∀ (s : List Char), (∀ x ∈ s, isQuoteChar x = false) → findQuoted s = none := by
  intro s
  induction s with
  | nil => intro _; rfl
  | cons c rest ih =>
    intro h
    unfold findQuoted
    rw [if_neg (by simp [h c (by simp)])]
    exact ih fun x hx => h x (by simp [hx])

/-- A found index points at an element satisfying the predicate. -/
theorem findIdxFrom_some {p : List Char → Bool} :
    ∀ {l : List (List Char)} {i : Nat}, findIdxFrom p l = some i →
      ∃ x, l.get? i = some x ∧ p x = true := by
  intro l
  induction l with
  | nil => intro i h; simp [findIdxFrom] at h
  | cons a as ih =>
    intro i h
    unfold findIdxFrom at h
    split at h
    · rename_i hp
      cases h
      exact ⟨a, rfl, hp⟩
    · rcases hrec : findIdxFrom p as with _ | j
      · rw [hrec] at h; simp at h
      · rw [hrec] at h
        have hji : j + 1 = i := by simpa using h
        subst hji
        obtain ⟨x, hx1, hx2⟩ := ih hrec
        exact ⟨x, hx1, hx2⟩

/-- All elements before a found index fail the predicate. -/
theorem findIdxFrom_take {p : List Char → Bool} :
    ∀ {l : List (List Char)} {i : Nat}, findIdxFrom p l = some i →
      ∀ x ∈ l.take i, p x = false := by
  intro l
  induction l with
  | nil => intro i h; simp [findIdxFrom] at h
  | cons a as ih =>
    intro i h
    unfold findIdxFrom at h
    split at h
    · cases h; simp
    · rename_i hp
      rcases hrec : findIdxFrom p as with _ | j
      · rw [hrec] at h; simp at h
      · rw [hrec] at h
        have hji : j + 1 = i := by simpa using h
        subst hji
        intro x hx
        rw [List.take_succ_cons] at hx
        rcases List.mem_cons.mp hx with hxa | hxs
        · subst hxa; exact Bool.not_eq_true _ ▸ (by simpa using hp)
        · exact ih hrec x hxs

/-- When no index is found, every element fails the predicate. -/
theorem findIdxFrom_none {p : List Char → Bool} :
    ∀ {l : List (List Char)}, findIdxFrom p l = none → ∀ x ∈ l, p x = false := by
  intro l
  induction l with
  | nil => intro _ x hx; simp at hx
  | cons a as ih =>
    intro h x hx
    unfold findIdxFrom at h
    split at h
    · simp at h
    · rename_i hp
      rcases List.mem_cons.mp hx with hxa | hxs
      · subst hxa; simpa using hp
      · rcases hrec : findIdxFrom p as with _ | j
        · exact ih hrec x hxs
        · rw [hrec] at h; simp at h

/-- When every element fails the predicate, no index is found. -/
theorem findIdxFrom_none_of_all {p : List Char → Bool} :
    ∀ {l : List (List Char)}, (∀ x ∈ l, p x = false) → findIdxFrom p l = none := by
  intro l
  induction l with
  | nil => intro _; rfl
  | cons a as ih =>
    intro h
    unfold findIdxFrom
    rw [if_neg (by simp [h a (by simp)])]
    rw [ih fun x hx => h x (by simp [hx])]
    rfl

/-- A bounded index scan returns the value found at the first succeeding
index when all earlier indices in the window fail. -/
theorem findSome?_range'_eq_some {β : Type} (f : Nat → Option β) :
    ∀ (cnt s j : Nat) (v : β), s ≤ j → j < s + cnt →
      (∀ k, s ≤ k → k < j → f k = none) → f j = some v →
      (List.range' s cnt).findSome? f = some v := by
  intro cnt
  induction cnt with
  | zero => intro s j v h1 h2 _ _; omega
  | succ n ih =>
    intro s j v h1 h2 hnone hj
    rw [show List.range' s (n + 1) = s :: List.range' (s + 1) n from rfl]
    by_cases hsj : s = j
    · subst hsj
      simp [List.findSome?_cons, hj]
    · have hs : f s = none := hnone s le_rfl (by omega)
      simp only [List.findSome?_cons, hs]
      exact ih (s + 1) j v (by omega) (by omega)
        (fun k hk1 hk2 => hnone k (by omega) hk2) hj

/-- A blank or decorator line inside the scan window is skipped. -/
theorem candidateAt_none_of_skip {lines : List (List Char)} {r : Except String String}
    {k : Nat} {lk : List Char} (hget : lines.get? k = some lk)
    (hor : stripDiffMarker lk = [] ∨ isPrefixL ['@'] (stripDiffMarker lk) = true) :
    candidateAt lines r k = none := by
  simp only [candidateAt, hget]
  rcases hor with h | h <;> simp [h]

/-- C1: for every diff text containing the added line
`+@app.post("/api/x")` immediately followed by the added line
`+async def create_x():`, the detector yields exactly one record for
that decorator line (its per-line result is exactly one `some`), the
record appears in the output of `detect_api_changes`, and it has method
`POST`, path `/api/x` and function name `create_x`. -/
theorem detect_added_post_decorator (diff fp : String) (r : Except String String) (i : Nat)
    (h1 : (splitNl diff.toList).get? i = some ("+@app.post(\"/api/x\")".toList))
    (h2 : (splitNl diff.toList).get? (i + 1) = some ("+async def create_x():".toList)) :
    ∃ c, detectAtLine (splitNl diff.toList) fp r i = some c ∧
      c ∈ detect_api_changes diff fp r ∧
      c.method = "POST" ∧ c.path = "/api/x" ∧ c.function_name = "create_x" := by
  have hlen : i + 1 < (splitNl diff.toList).length := (List.get?_eq_some.mp h2).1
  have hcand : candidateAt (splitNl diff.toList) r (i + 1) =
      some ⟨"create_x", get_full_function_code r "create_x", i + 2⟩ := by
    simp only [candidateAt, h2]
    rfl
  have hfind : find_function_definition (splitNl diff.toList) i r =
      some ⟨"create_x", get_full_function_code r "create_x", i + 2⟩ := by
    unfold find_function_definition
    exact findSome?_range'_eq_some _ _ (i + 1) (i + 1) _ le_rfl (by omega)
      (fun k hk1 hk2 => by omega) hcand
  have hAt : detectAtLine (splitNl diff.toList) fp r i =
      some ⟨"POST", "/api/x", "create_x", fp, get_full_function_code r "create_x", i + 2, "new"⟩ := by
    unfold detectAtLine
    rw [h1]
    unfold detectLine
    rw [hfind]
    rfl
  refine ⟨_, hAt, ?_, rfl, rfl, rfl⟩
  unfold detect_api_changes
  exact List.mem_filterMap.mpr ⟨i, List.mem_range.mpr (by omega), hAt⟩

theorem detect_added_post_decorator_witness :
    ∃ c, detectAtLine (splitNl ("+@app.post(\"/api/x\")\n+async def create_x():").toList)
        "f.py" (Except.ok "") 0 = some c ∧
      c ∈ detect_api_changes "+@app.post(\"/api/x\")\n+async def create_x():" "f.py" (Except.ok "") ∧
      c.method = "POST" ∧ c.path = "/api/x" ∧ c.function_name = "create_x" :=
  detect_added_post_decorator "+@app.post(\"/api/x\")\n+async def create_x():" "f.py"
    (Except.ok "") 0 (by decide) (by decide)

/-- C2: a diff in which no line begins with the addition marker produces
no records; route declarations on context or removed lines are never
reported. -/
theorem detect_no_added_lines (diff fp : String) (r : Except String String)
    (h : ∀ l ∈ splitNl diff.toList, isPrefixL ['+'] l = false) :
    detect_api_changes diff fp r = [] := by
  unfold detect_api_changes
  apply List.filterMap_eq_nil_iff.mpr
  intro i _
  unfold detectAtLine
  split
  · rfl
  · rename_i line hline
    unfold detectLine
    rw [h line (List.get?_mem hline)]
    rfl

theorem detect_no_added_lines_witness :
    detect_api_changes " @app.get(\"/x\")\n-@app.post(\"/y\")\ndef f():" "f.py" (Except.ok "") = [] :=
  detect_no_added_lines " @app.get(\"/x\")\n-@app.post(\"/y\")\ndef f():" "f.py" (Except.ok "")
    (by decide)

/-- C3: the function locator scans at most the 9 diff lines after the
decorator (indices `decorator_index + 1` to
`min(decorator_index + 10, len(lines)) - 1`); when none of them yields a
function definition the locator returns nothing and no record is
produced for that decorator line. -/
theorem locate_window_bounded (lines : List (List Char)) (di : Nat) (r : Except String String)
    (h : ∀ i, di + 1 ≤ i → i < min (di + 10) lines.length → candidateAt lines r i = none) :
    find_function_definition lines di r = none ∧
      ∀ (fp : String) (line : List Char), detectLine lines fp r di line = none := by
  have hf : find_function_definition lines di r = none := by
    unfold find_function_definition
    apply List.findSome?_eq_none_iff.mpr
    intro i hi
    rw [List.mem_range'_1] at hi
    exact h i hi.1 (by omega)
  exact ⟨hf, fun fp line => detectLine_none_of_find hf⟩

theorem locate_window_bounded_witness :
    find_function_definition
        (splitNl ("+@app.get(\"/x\")\n+a\n+b\n+c\n+d\n+e\n+f\n+g\n+h\n+i\n+j\n+def late_f():").toList)
        0 (Except.ok "") = none ∧
      (∀ (fp : String) (line : List Char),
        detectLine
          (splitNl ("+@app.get(\"/x\")\n+a\n+b\n+c\n+d\n+e\n+f\n+g\n+h\n+i\n+j\n+def late_f():").toList)
          fp (Except.ok "") 0 line = none) ∧
      (splitNl ("+@app.get(\"/x\")\n+a\n+b\n+c\n+d\n+e\n+f\n+g\n+h\n+i\n+j\n+def late_f():").toList).get? 11 =
        some ("+def late_f():".toList) ∧
      detect_api_changes "+@app.get(\"/x\")\n+a\n+b\n+c\n+d\n+e\n+f\n+g\n+h\n+i\n+j\n+def late_f():"
        "f.py" (Except.ok "") = [] := by
  obtain ⟨hA, hB⟩ := locate_window_bounded
    (splitNl ("+@app.get(\"/x\")\n+a\n+b\n+c\n+d\n+e\n+f\n+g\n+h\n+i\n+j\n+def late_f():").toList)
    0 (Except.ok "")
    (by
      intro i h1 h2
      have hL : min (0 + 10)
          (splitNl ("+@app.get(\"/x\")\n+a\n+b\n+c\n+d\n+e\n+f\n+g\n+h\n+i\n+j\n+def late_f():").toList).length = 10 := by
        rfl
      rw [hL] at h2
      interval_cases i <;> rfl)
  exact ⟨hA, hB, by decide, by decide⟩

/-- C4 counterexample: blank added lines DO consume slots of the bounded
window.  With the decorator at diff index 0 followed by nine blank added
lines, a function definition at index 10 is not found and no record is
produced, although the same definition at index 9 (after only eight
blank lines) is found: the nine skipped blank lines exhausted the whole
window. -/
theorem skip_consumes_window_counterexample :
    detect_api_changes "+@app.get(\"/x\")\n+\n+\n+\n+\n+\n+\n+\n+\n+\n+def late_f():"
        "f.py" (Except.ok "") = [] ∧
      (splitNl ("+@app.get(\"/x\")\n+\n+\n+\n+\n+\n+\n+\n+\n+\n+def late_f():").toList).get? 10 =
        some ("+def late_f():".toList) ∧
      (detect_api_changes "+@app.get(\"/x\")\n+\n+\n+\n+\n+\n+\n+\n+\n+def ok_f():"
          "f.py" (Except.ok "")).map APIChange.function_name = ["ok_f"] :=
  ⟨by decide, by decide, by decide⟩

/-- C4 (amended): blank lines and decorator lines inside the scan window
never match and the scan continues past them — if every line strictly
between the decorator and index `j` is blank or a decorator after
stripping, and the line at `j` yields a candidate, the locator returns
that candidate — but each skipped line occupies one slot of the fixed
window `decorator_index + 1 .. min(decorator_index + 10, len) - 1`
(hypothesis `h2`), so skipped lines do reduce the remaining candidate
lines. -/
theorem skip_lines_scan_continues (lines : List (List Char)) (di j : Nat)
    (r : Except String String) (fi : FuncInfo)
    (h1 : di + 1 ≤ j) (h2 : j < min (di + 10) lines.length)
    (hskip : ∀ k, di + 1 ≤ k → k < j → ∃ lk, lines.get? k = some lk ∧
        (stripDiffMarker lk = [] ∨ isPrefixL ['@'] (stripDiffMarker lk) = true))
    (hj : candidateAt lines r j = some fi) :
    find_function_definition lines di r = some fi := by
  unfold find_function_definition
  apply findSome?_range'_eq_some _ _ (di + 1) j fi h1 (by omega) _ hj
  intro k hk1 hk2
  obtain ⟨lk, hget, hor⟩ := hskip k hk1 hk2
  exact candidateAt_none_of_skip hget hor

theorem skip_lines_scan_continues_witness :
    find_function_definition
        (splitNl ("+@app.get(\"/x\")\n+\n+@decorator\n+def f():").toList) 0 (Except.ok "") =
      some ⟨"f", "# Function f not found in current file", 4⟩ := by
  apply skip_lines_scan_continues
      (splitNl ("+@app.get(\"/x\")\n+\n+@decorator\n+def f():").toList) 0 3 (Except.ok "")
      ⟨"f", "# Function f not found in current file", 4⟩ (by omega) (by decide)
  · intro k hk1 hk2
    interval_cases k
    · exact ⟨"+".toList, by decide, Or.inl (by decide)⟩
    · exact ⟨"+@decorator".toList, by decide, Or.inr (by decide)⟩
  · rfl

/-- C5: for every record produced for an added line, the path equals the
first quoted literal of the cleaned line — witnessed by the unique
decomposition of the cleaned line into a quote-free prefix, an opening
quote (of either kind), a non-empty quote-free run and a closing quote
(of either kind) — and when the cleaned line contains no quote
characters at all the path is the sentinel `unknown` while the record is
still produced (the match is non-fatal). -/
theorem record_path_first_quoted (lines : List (List Char)) (fp : String)
    (r : Except String String) (i : Nat) (line : List Char) (c : APIChange)
    (h : detectLine lines fp r i line = some c) :
    (∀ (a p b : List Char) (q1 q2 : Char),
        trimL (line.drop 1) = a ++ q1 :: (p ++ q2 :: b) →
        isQuoteChar q1 = true → isQuoteChar q2 = true →
        (∀ x ∈ a, isQuoteChar x = false) → (∀ x ∈ p, isQuoteChar x = false) → p ≠ [] →
        c.path = String.mk p) ∧
    ((∀ x ∈ trimL (line.drop 1), isQuoteChar x = false) → c.path = "unknown") := by
  obtain ⟨-, m, fi, hm, hf, rfl⟩ := detectLine_inv h
  constructor
  · intro a p b q1 q2 hdec hq1 hq2 ha hp hne
    show extractPath (trimL (line.drop 1)) = String.mk p
    rw [hdec]
    unfold extractPath
    rw [findQuoted_decomp a q1 p q2 b hq1 hq2 ha hp hne]
  · intro hnoq
    show extractPath (trimL (line.drop 1)) = "unknown"
    unfold extractPath
    rw [findQuoted_of_no_quote _ hnoq]

theorem record_path_first_quoted_witness :
    (⟨"GET", "/q", "f", "f.py", "# Function f not found in current file", 2, "new"⟩ : APIChange).path =
        String.mk "/q".toList ∧
      (⟨"GET", "unknown", "g", "f.py", "# Function g not found in current file", 2, "new"⟩ : APIChange).path =
        "unknown" := by
  constructor
  · exact (record_path_first_quoted
        (splitNl ("+@app.get(\"/q\")\n+def f():").toList) "f.py" (Except.ok "") 0
        ("+@app.get(\"/q\")".toList) _ (by rfl)).1
      "@app.get(".toList "/q".toList ")".toList '"' '"'
      (by decide) (by decide) (by decide) (by decide) (by decide) (by decide)
  · exact (record_path_first_quoted
        (splitNl ("+@app.get(no_quotes)\n+def g():").toList) "f.py" (Except.ok "") 0
        ("+@app.get(no_quotes)".toList) _ (by rfl)).2 (by decide)

/-- The head survives taking a positive number of elements. -/
theorem head?_take_pos {α : Type} (n : Nat) (l : List α) (h : 1 ≤ n) :
    (l.take n).head? = l.head? := by
  cases n with
  | zero => omega
  | succ m => cases l <;> rfl

/-- C6: every snippet produced by the extractor starts at the first file
line containing the literal `def <functionName>(`, contains at most 20
lines, and contains no later line that starts a new function, class or
decorator (the window is truncated before the first such line). -/
theorem snippet_window (content function_name : String) (ls : List (List Char))
    (h : snippetLines content function_name = some ls) :
    ls.length ≤ 20 ∧
      (∃ l0, ls.head? = some l0 ∧
        hasSubstrL ("def " ++ function_name ++ "(").toList l0 = true ∧
        (∃ i, (splitNl content.toList).get? i = some l0 ∧
          ∀ l ∈ (splitNl content.toList).take i,
            hasSubstrL ("def " ++ function_name ++ "(").toList l = false)) ∧
      (∀ l ∈ ls.drop 1, isNextDefStart l = false) := by
  unfold snippetLines at h
  split at h
  · exact absurd h (by simp)
  · rename_i i heq
    obtain ⟨x, hget, hpx⟩ := findIdxFrom_some heq
    have hbefore := findIdxFrom_take heq
    have h' := Option.some.inj h
    subst h'
    have hwlen : (((splitNl content.toList).drop i).take 20).length ≤ 20 := by
      rw [List.length_take]; omega
    have hwhead : (((splitNl content.toList).drop i).take 20).head? = some x := by
      rw [head?_take_pos 20 _ (by omega)]
      rw [List.head?_drop, ← List.get?_eq_getElem?]
      exact hget
    unfold snippetTrunc
    split
    · rename_i j0 htr
      refine ⟨?_, ⟨x, ?_, hpx, ⟨i, hget, hbefore⟩⟩, ?_⟩
      · rw [List.length_take]; omega
      · rw [head?_take_pos (j0 + 1) _ (by omega)]
        exact hwhead
      · intro l hl
        rw [List.drop_take] at hl
        have := findIdxFrom_take htr
        simpa using this l (by simpa using hl)
    · rename_i htr
      refine ⟨hwlen, ⟨x, hwhead, hpx, ⟨i, hget, hbefore⟩⟩, ?_⟩
      exact fun l hl => findIdxFrom_none htr l hl

theorem snippet_window_witness :
    ∃ ls, snippetLines
        "def create_x():\n a1\n a2\n a3\n a4\n a5\n a6\n a7\n a8\n a9\n a10\n a11\n a12\n a13\n a14\n a15\n a16\n a17\n a18\n a19\n a20\n a21\n a22\n a23\n a24\n a25\ndef create_y():"
        "create_x" = some ls ∧
      ls.length ≤ 20 ∧ (∀ l ∈ ls.drop 1, isNextDefStart l = false) ∧
      "def create_y():".toList ∉ ls := by
  obtain ⟨hlen, -, htail⟩ := snippet_window
    "def create_x():\n a1\n a2\n a3\n a4\n a5\n a6\n a7\n a8\n a9\n a10\n a11\n a12\n a13\n a14\n a15\n a16\n a17\n a18\n a19\n a20\n a21\n a22\n a23\n a24\n a25\ndef create_y():"
    "create_x" _ rfl
  exact ⟨_, rfl, hlen, htail, by decide⟩

/-- C7: the snippet extractor is total and never propagates a failure:
a failed file read returns the diagnostic string embedding the failure
reason, and a function name whose marker occurs on no line of the file
returns the not-found placeholder naming the function. -/
theorem snippet_total (e function_name content : String)
    (h : ∀ l ∈ splitNl content.toList,
        hasSubstrL ("def " ++ function_name ++ "(").toList l = false) :
    get_full_function_code (Except.error e) function_name = "# Error reading function: " ++ e ∧
      get_full_function_code (Except.ok content) function_name =
        "# Function " ++ function_name ++ " not found in current file" := by
  constructor
  · rfl
  · have hs : snippetLines content function_name = none := by
      unfold snippetLines
      rw [findIdxFrom_none_of_all h]
    have hred : get_full_function_code (Except.ok content) function_name =
        match snippetLines content function_name with
        | some ls => String.mk (List.intercalate ['\n'] ls)
        | none => "# Function " ++ function_name ++ " not found in current file" := rfl
    rw [hred, hs]

theorem snippet_total_witness :
    get_full_function_code (Except.error "boom") "create_x" =
        "# Error reading function: " ++ "boom" ∧
      get_full_function_code (Except.ok "x = 1\ny = 2") "create_x" =
        "# Function " ++ "create_x" ++ " not found in current file" :=
  snippet_total "boom" "create_x" "x = 1\ny = 2" (by decide)

/-- C8: every record produced by the detector has a method drawn from
the fixed five-element enumeration and change type `new`. -/
theorem record_method_enum (diff fp : String) (r : Except String String) (c : APIChange)
    (h : c ∈ detect_api_changes diff fp r) :
    (c.method = "GET" ∨ c.method = "POST" ∨ c.method = "PUT" ∨
        c.method = "DELETE" ∨ c.method = "PATCH") ∧
      c.change_type = "new" := by
  unfold detect_api_changes at h
  obtain ⟨i, -, hAt⟩ := List.mem_filterMap.mp h
  unfold detectAtLine at hAt
  split at hAt
  · exact absurd hAt (by simp)
  · obtain ⟨-, m, fi, hm, -, rfl⟩ := detectLine_inv hAt
    exact ⟨lineMethod_cases hm, rfl⟩

theorem record_method_enum_witness :
    ((⟨"DELETE", "/items", "remove_item", "f.py",
          "# Function remove_item not found in current file", 2, "new"⟩ : APIChange).method = "GET" ∨
        (⟨"DELETE", "/items", "remove_item", "f.py",
          "# Function remove_item not found in current file", 2, "new"⟩ : APIChange).method = "POST" ∨
        (⟨"DELETE", "/items", "remove_item", "f.py",
          "# Function remove_item not found in current file", 2, "new"⟩ : APIChange).method = "PUT" ∨
        (⟨"DELETE", "/items", "remove_item", "f.py",
          "# Function remove_item not found in current file", 2, "new"⟩ : APIChange).method = "DELETE" ∨
        (⟨"DELETE", "/items", "remove_item", "f.py",
          "# Function remove_item not found in current file", 2, "new"⟩ : APIChange).method = "PATCH") ∧
      (⟨"DELETE", "/items", "remove_item", "f.py",
          "# Function remove_item not found in current file", 2, "new"⟩ : APIChange).change_type = "new" :=
  record_method_enum "+@app.delete(\"/items\")\n+def remove_item():" "f.py" (Except.ok "")
    ⟨"DELETE", "/items", "remove_item", "f.py",
      "# Function remove_item not found in current file", 2, "new"⟩ (by decide)

/-- C9 counterexample: the pattern list supports five HTTP methods, not
six — the alternation of `FASTAPI_PATTERNS` is
`(get|post|put|delete|patch)` — and added decorator lines for further
common methods such as `head` or `options` produce no record. -/
theorem pattern_five_methods_counterexample :
    FASTAPI_METHODS.length = 5 ∧
      detect_api_changes "+@app.head(\"/x\")\n+def f():" "f.py" (Except.ok "") = [] ∧
      detect_api_changes "+@app.options(\"/x\")\n+def f():" "f.py" (Except.ok "") = [] :=
  ⟨rfl, by decide, by decide⟩

/-- C9 (amended): the fixed pattern list recognizes decorator route
declarations for the five supported HTTP methods (get, post, put,
delete, patch), the two patterns are tested in fixed list order against
each candidate added line (`@app.` first, then `@router.`, so a match of
the first pattern wins even when the second also occurs on the line),
only the five upper-cased method names can ever be produced, and at most
one record results per diff line. -/
theorem pattern_order_first_wins :
    (∀ (clean : List Char) (m : String),
        searchPat "@app.".toList clean = some m → lineMethod clean = some m) ∧
      (∀ clean : List Char, searchPat "@app.".toList clean = none →
        lineMethod clean = searchPat "@router.".toList clean) ∧
      (∀ (clean : List Char) (m : String), lineMethod clean = some m →
        m = "GET" ∨ m = "POST" ∨ m = "PUT" ∨ m = "DELETE" ∨ m = "PATCH") ∧
      (∀ (diff fp : String) (r : Except String String),
        (detect_api_changes diff fp r).length ≤ (splitNl diff.toList).length) := by
  refine ⟨?_, ?_, ?_, ?_⟩
  · intro clean m h
    unfold lineMethod
    rw [h]
  · intro clean h
    unfold lineMethod
    rw [h]
  · exact fun clean m h => lineMethod_cases h
  · intro diff fp r
    unfold detect_api_changes
    exact le_trans (List.length_filterMap_le _ _) (le_of_eq (List.length_range _))

theorem pattern_order_first_wins_witness :
    lineMethod ("@router.post(\"/y\") @app.get(\"/z\")".toList) = some "GET" ∧
      ("GET" = "GET" ∨ "GET" = "POST" ∨ "GET" = "PUT" ∨ "GET" = "DELETE" ∨ "GET" = "PATCH") ∧
      (detect_api_changes "+@router.post(\"/y\") @app.get(\"/z\")\n+def f():" "f.py"
          (Except.ok "")).length ≤ 2 := by
  have h1 := pattern_order_first_wins.1 ("@router.post(\"/y\") @app.get(\"/z\")".toList) "GET"
    (by decide)
  refine ⟨h1, pattern_order_first_wins.2.2.1 _ "GET" h1, ?_⟩
  exact le_trans
    (pattern_order_first_wins.2.2.2 "+@router.post(\"/y\") @app.get(\"/z\")\n+def f():" "f.py"
      (Except.ok "")) (by decide)

/-- C10: the function locator strips leading `+`, `-` and space
characters from each candidate line before matching, so a function
definition appearing on a removed line or on an unchanged context line
is accepted: an added decorator followed only by a removed `def` line,
or only by a context `def` line, is bound into a record whose function
name comes from that removed or unchanged line. -/
theorem locator_accepts_removed_and_context_lines :
    (detect_api_changes "+@app.get(\"/x\")\n-def removed_f():" "f.py" (Except.ok "")).map
        (fun c => (c.method, c.path, c.function_name)) = [("GET", "/x", "removed_f")] ∧
      (detect_api_changes "+@app.get(\"/y\")\n def context_f():" "f.py" (Except.ok "")).map
        (fun c => (c.method, c.path, c.function_name)) = [("GET", "/y", "context_f")] ∧
      stripDiffMarker ("-def removed_f():".toList) = "def removed_f():".toList ∧
      stripDiffMarker (" def context_f():".toList) = "def context_f():".toList :=
  ⟨by decide, by decide, by decide, by decide⟩
